import Mathlib

/-!
Shallow embedding of `datasetwithtime_generation.py` (class `QuantumWorkloadGenerator`).

Modelling conventions:
* `datetime` / `timedelta` values are rationals, measured in seconds; `datetime.now()`
  becomes an explicit `base` parameter, `t.timestamp()` and `d.total_seconds()` are the
  identity.
* Randomness is an explicit oracle: `random.uniform(0, x)` is `u i * x` where `u : ℕ → ℚ`
  is a stream of raw draws (theorems hypothesise `0 ≤ u i ∧ u i ≤ 1`);
  `random.random()` is a stream `r : ℕ → ℚ` (theorems hypothesise `0 ≤ r j ∧ r j < 1`);
  `random.randint(1, m)` for `m ≥ 1` is `1 + b j % m` for a raw stream `b : ℕ → ℕ`,
  which ranges exactly over `[1, m]`; for `m < 1` it raises `ValueError`.
* Python exceptions become `Except Err`: pandas' `ValueError` on a bad sampling
  parameter is `Err.invalidParameter`, `ZeroDivisionError` is `Err.zeroDivision`,
  pandas' length-mismatch `ValueError` on column assignment is `Err.lengthMismatch`,
  and the missing-timestamp-column `ValueError` is `Err.missingField`.
* A sampled task record is an opaque value of a type `α`; an output DataFrame row is a
  `List (Cell α)` in column order, built exactly the way the code builds it:
  the sampled columns, then `df['timestamp'] = ts` appends the timestamp column, then
  `df.insert(0, 'subset', 1)` prepends the subset column.
* Integer parameters (`num_qtasks`, `burst_tasks`, ...) are `ℤ`; Python's
  `range(k)` for possibly negative `k` is `List.range k.toNat`.
-/

namespace QWG

/-- Error kinds raised by the Python code (see the modelling conventions above). -/
inductive Err : Type where
  | invalidParameter : Err
  | zeroDivision : Err
  | lengthMismatch : Err
  | missingField : Err
deriving DecidableEq, Repr

/-- One column cell of an output row: the injected `subset` column, an original
task-pool record (opaque), or the `timestamp` column. -/
inductive Cell (α : Type) : Type where
  | subset : ℤ → Cell α
  | task : α → Cell α
  | timestamp : ℚ → Cell α
deriving DecidableEq, Repr

/-- An output DataFrame row, in column order. -/
abbrev Row (α : Type) := List (Cell α)

/-- `self.available_datasets.sample(n=n, replace=True)`: pandas raises `ValueError`
for a negative `n` and otherwise draws `n` records with replacement; the draws are
given by the oracle `pick`, consumed positionally. -/
def sample (pick : ℕ → α) (n : ℤ) : Except Err (List α) :=
  if n < 0 then Except.error Err.invalidParameter
  else Except.ok ((List.range n.toNat).map pick)

/-- `sample_df['timestamp'] = ts` followed by reading the rows back: pandas raises a
length-mismatch `ValueError` when the column length differs from the frame length;
otherwise each row becomes the task cell followed by the timestamp cell. -/
def attachTimestamps (tasks : List α) (ts : List ℚ) : Except Err (List (Row α)) :=
  if tasks.length = ts.length then
    Except.ok (List.zipWith (fun a t => [Cell.task a, Cell.timestamp t]) tasks ts)
  else Except.error Err.lengthMismatch

/-- `sample_df.insert(0, 'subset', 1)`: prepend the constant subset column. -/
def insertSubset (rows : List (Row α)) : List (Row α) :=
  rows.map (fun row => Cell.subset 1 :: row)

/-- Inter-arrival gaps of a timestamp sequence: `gapsOf l` is the list of
differences of consecutive elements of `l`. -/
def gapsOf (l : List ℚ) : List ℚ :=
  List.zipWith (fun a b => b - a) l l.tail

/-- Burst loop of `generate_single_spike_dataset` (lines 31-34):
`timestamp = current + uniform(0, burst_duration); append; current = timestamp`,
run `k` times, consuming uniform draws from index `i`. Returns the appended
timestamps and the final `current_time`. -/
def spikeBurstGo (u : ℕ → ℚ) (dur : ℚ) : ℕ → ℕ → ℚ → List ℚ × ℚ
  | 0, _, cur => ([], cur)
  | k + 1, i, cur =>
    let t := cur + u i * dur
    let p := spikeBurstGo u dur k (i + 1) t
    (t :: p.1, p.2)

/-- Normal-rate loop of `generate_single_spike_dataset` (lines 36-38):
`current += normal_interval; append current`, run `k` times. -/
def normalGo (step : ℚ) : ℕ → ℚ → List ℚ
  | 0, _ => []
  | k + 1, cur => (cur + step) :: normalGo step k (cur + step)

/-- The timestamp sequence built by `generate_single_spike_dataset`
(lines 27-38): `burst_tasks` compounding burst draws, then
`num_qtasks - burst_tasks` normal-interval steps.  No truncation. -/
def singleSpikeTimestamps (numQtasks burstTasks : ℤ) (burstDuration normalInterval : ℚ)
    (base : ℚ) (u : ℕ → ℚ) : List ℚ :=
  let p := spikeBurstGo u burstDuration burstTasks.toNat 0 base
  p.1 ++ normalGo normalInterval (numQtasks - burstTasks).toNat p.2

/-- `generate_single_spike_dataset` (lines 11-45): sample, synthesize, attach the
timestamp column (the list is NOT truncated to `num_qtasks` first), insert subset. -/
def generate_single_spike_dataset (pick : ℕ → α) (numQtasks : ℤ)
    (burstDuration normalInterval : ℚ) (burstTasks : ℤ) (base : ℚ) (u : ℕ → ℚ) :
    Except Err (List (Row α)) := do
  let tasks ← sample pick numQtasks
  let ts := singleSpikeTimestamps numQtasks burstTasks burstDuration normalInterval base u
  let rows ← attachTimestamps tasks ts
  pure (insertSubset rows)

/-- Burst loop of `generate_bursty_dataset` (lines 67-71): up to `k` iterations,
each guarded by `len(timestamps) >= num_qtasks: break`, appending `current_time`
then advancing by `uniform(0, slice)` where `slice = burst_duration / burst_tasks`. -/
def burstyBurstGo (u : ℕ → ℚ) (slice : ℚ) (n : ℕ) : ℕ → ℕ → ℚ → List ℚ → List ℚ × ℚ
  | 0, _, cur, acc => (acc, cur)
  | k + 1, i, cur, acc =>
    if acc.length ≥ n then (acc, cur)
    else burstyBurstGo u slice n k (i + 1) (cur + u i * slice) (acc ++ [cur])

/-- Low-activity loop of `generate_bursty_dataset` (lines 74-76):
`while len(timestamps) < num_qtasks: append current; current += low_activity_interval`. -/
def idleFill (low : ℚ) (n : ℕ) (cur : ℚ) (acc : List ℚ) : List ℚ :=
  if h : acc.length ≥ n then acc
  else idleFill low n (cur + low) (acc ++ [cur])
termination_by n - acc.length
decreasing_by
  simp only [List.length_append, List.length_cons, List.length_nil]
  omega

/-- The timestamp sequence built by `generate_bursty_dataset` (lines 62-76),
before the final `[:num_qtasks]` truncation. -/
def burstyTimestamps (numQtasks burstTasks : ℤ) (burstDuration lowActivityInterval : ℚ)
    (base : ℚ) (u : ℕ → ℚ) : List ℚ :=
  let p := burstyBurstGo u (burstDuration / (burstTasks : ℚ)) numQtasks.toNat
    burstTasks.toNat 0 base []
  idleFill lowActivityInterval numQtasks.toNat p.2 p.1

/-- `generate_bursty_dataset` (lines 47-81). -/
def generate_bursty_dataset (pick : ℕ → α) (numQtasks : ℤ) (burstDuration : ℚ)
    (burstTasks : ℤ) (lowActivityInterval : ℚ) (base : ℚ) (u : ℕ → ℚ) :
    Except Err (List (Row α)) := do
  let tasks ← sample pick numQtasks
  let ts := burstyTimestamps numQtasks burstTasks burstDuration lowActivityInterval base u
  let rows ← attachTimestamps tasks (ts.take numQtasks.toNat)
  pure (insertSubset rows)

/-- Shared inner burst loop shape (`generate_random_bursts` lines 200-204 and the
spike body of `simulate_regular_spikes` lines 105-109): up to `s` iterations, each
guarded by `len(timestamps) >= num_qtasks: break`, appending `current_time` then
advancing by `uniform(0, dur)`.  Returns (timestamps, current, next uniform index). -/
def burstInner (u : ℕ → ℚ) (dur : ℚ) (n : ℕ) : ℕ → ℕ → ℚ → List ℚ → List ℚ × ℚ × ℕ
  | 0, i, cur, acc => (acc, cur, i)
  | s + 1, i, cur, acc =>
    if acc.length ≥ n then (acc, cur, i)
    else burstInner u dur n s (i + 1) (cur + u i * dur) (acc ++ [cur])

/-- Outer loop of `simulate_regular_spikes` (lines 102-112): `for i in range(num_qtasks)`,
with the spike branch when `i % spike_tasks == 0 and i != 0` (Python raises
`ZeroDivisionError` on `i % 0`).  `k` counts remaining iterations, `iIdx` is `i`,
`uIdx` the next uniform-draw index. -/
def regularSpikesGo (u : ℕ → ℚ) (spikeInterval normalInterval : ℚ) (spikeTasks : ℤ)
    (n : ℕ) : ℕ → ℕ → ℕ → ℚ → List ℚ → Except Err (List ℚ)
  | 0, _, _, _, acc => Except.ok acc
  | k + 1, iIdx, uIdx, cur, acc =>
    if spikeTasks = 0 then Except.error Err.zeroDivision
    else if (iIdx : ℤ) % spikeTasks = 0 ∧ iIdx ≠ 0 then
      let q := burstInner u (spikeInterval / (spikeTasks : ℚ)) n spikeTasks.toNat uIdx
        (cur + spikeInterval) acc
      regularSpikesGo u spikeInterval normalInterval spikeTasks n k (iIdx + 1) q.2.2 q.2.1 q.1
    else
      regularSpikesGo u spikeInterval normalInterval spikeTasks n k (iIdx + 1) uIdx
        (cur + normalInterval) (acc ++ [cur])

/-- The timestamp sequence built by `simulate_regular_spikes` (lines 98-112),
before the final `[:num_qtasks]` truncation. -/
def regularSpikesTimestamps (numQtasks : ℤ) (spikeInterval : ℚ) (spikeTasks : ℤ)
    (normalInterval : ℚ) (base : ℚ) (u : ℕ → ℚ) : Except Err (List ℚ) :=
  regularSpikesGo u spikeInterval normalInterval spikeTasks numQtasks.toNat
    numQtasks.toNat 0 0 base []

/-- `simulate_regular_spikes` (lines 83-117). -/
def simulate_regular_spikes (pick : ℕ → α) (numQtasks : ℤ) (spikeInterval : ℚ)
    (spikeTasks : ℤ) (normalInterval : ℚ) (base : ℚ) (u : ℕ → ℚ) :
    Except Err (List (Row α)) := do
  let tasks ← sample pick numQtasks
  let ts ← regularSpikesTimestamps numQtasks spikeInterval spikeTasks normalInterval base u
  let rows ← attachTimestamps tasks (ts.take numQtasks.toNat)
  pure (insertSubset rows)

/-- Loop of `simulate_ramp_up` (lines 139-141): `for i in range(num_qtasks)`,
append `current`, then `current += initial_interval - i * interval_step`. -/
def rampUpGo (initInterval step : ℚ) : ℕ → ℕ → ℚ → List ℚ
  | 0, _, _ => []
  | k + 1, i, cur => cur :: rampUpGo initInterval step k (i + 1)
      (cur + (initInterval - (i : ℚ) * step))

/-- Loop of `simulate_ramp_down` (lines 168-170): `for i in range(num_qtasks)`,
append `current`, then `current += initial_interval + i * interval_step`. -/
def rampDownGo (initInterval step : ℚ) : ℕ → ℕ → ℚ → List ℚ
  | 0, _, _ => []
  | k + 1, i, cur => cur :: rampDownGo initInterval step k (i + 1)
      (cur + (initInterval + (i : ℚ) * step))

/-- The timestamp sequence of `simulate_ramp_up`, with
`interval_step = (initial_interval - final_interval) / (num_qtasks - 1)` (line 137). -/
def rampUpTimestamps (numQtasks : ℤ) (initInterval finInterval base : ℚ) : List ℚ :=
  rampUpGo initInterval ((initInterval - finInterval) / ((numQtasks : ℚ) - 1))
    numQtasks.toNat 0 base

/-- The timestamp sequence of `simulate_ramp_down`, with
`interval_step = (final_interval - initial_interval) / (num_qtasks - 1)` (line 166). -/
def rampDownTimestamps (numQtasks : ℤ) (initInterval finInterval base : ℚ) : List ℚ :=
  rampDownGo initInterval ((finInterval - initInterval) / ((numQtasks : ℚ) - 1))
    numQtasks.toNat 0 base

/-- `simulate_ramp_up` (lines 119-146).  The division on line 137 raises
`ZeroDivisionError` exactly when `num_qtasks - 1 == 0`. -/
def simulate_ramp_up (pick : ℕ → α) (numQtasks : ℤ) (initInterval finInterval base : ℚ) :
    Except Err (List (Row α)) := do
  let tasks ← sample pick numQtasks
  if numQtasks - 1 = 0 then Except.error Err.zeroDivision
  else do
    let ts := rampUpTimestamps numQtasks initInterval finInterval base
    let rows ← attachTimestamps tasks (ts.take numQtasks.toNat)
    pure (insertSubset rows)

/-- `simulate_ramp_down` (lines 148-175).  Note: the `insert(0, 'subset', 1)` call is
commented out in the source (line 173), so no subset column is prepended. -/
def simulate_ramp_down (pick : ℕ → α) (numQtasks : ℤ) (initInterval finInterval base : ℚ) :
    Except Err (List (Row α)) := do
  let tasks ← sample pick numQtasks
  if numQtasks - 1 = 0 then Except.error Err.zeroDivision
  else do
    let ts := rampDownTimestamps numQtasks initInterval finInterval base
    let rows ← attachTimestamps tasks (ts.take numQtasks.toNat)
    pure rows

/-- Main loop of `generate_random_bursts` (lines 197-207):
`while len(timestamps) < num_qtasks`, a `random.random() < burst_chance` test picks
the burst branch (with `random.randint(1, max_tasks_in_burst)` inner iterations,
raising `ValueError` when `max_tasks_in_burst < 1`) or the normal branch.
`j` indexes the `r`/`b` streams (one decision per iteration), `i` the uniform stream. -/
def randomBurstsGo (chance dur normalInterval : ℚ) (maxBurst : ℤ) (r : ℕ → ℚ)
    (b : ℕ → ℕ) (u : ℕ → ℚ) (n : ℕ) (j i : ℕ) (cur : ℚ) (acc : List ℚ) :
    Except Err (List ℚ) :=
  if h : acc.length ≥ n then Except.ok acc
  else if r j < chance then
    if hm : maxBurst < 1 then Except.error Err.invalidParameter
    else
      let q := burstInner u dur n (b j % maxBurst.toNat + 1) i cur acc
      randomBurstsGo chance dur normalInterval maxBurst r b u n (j + 1) q.2.2 q.2.1 q.1
  else
    randomBurstsGo chance dur normalInterval maxBurst r b u n (j + 1) i
      (cur + normalInterval) (acc ++ [cur])
termination_by n - acc.length
decreasing_by
  · have mono : ∀ s is cs (as : List ℚ), as.length ≤ (burstInner u dur n s is cs as).1.length := by
      intro s
      induction s with
      | zero => intro is cs as; simp [burstInner]
      | succ s ih =>
        intro is cs as
        simp only [burstInner]
        split
        · exact le_refl _
        · calc as.length ≤ (as ++ [cs]).length := by simp
            _ ≤ _ := ih (is + 1) (cs + u is * dur) (as ++ [cs])
    have step : acc.length < (burstInner u dur n (b j % maxBurst.toNat + 1) i cur acc).1.length := by
      simp only [burstInner]
      rw [if_neg (by omega)]
      calc acc.length < (acc ++ [cur]).length := by simp
        _ ≤ _ := mono _ (i + 1) (cur + u i * dur) (acc ++ [cur])
    omega
  · simp only [List.length_append, List.length_cons, List.length_nil]
    omega

/-- The timestamp sequence built by `generate_random_bursts` (lines 193-207),
before the final `[:num_qtasks]` truncation. -/
def randomBurstsTimestamps (numQtasks : ℤ) (chance : ℚ) (burstDuration : ℚ)
    (maxBurst : ℤ) (normalInterval : ℚ) (base : ℚ) (r : ℕ → ℚ) (b : ℕ → ℕ)
    (u : ℕ → ℚ) : Except Err (List ℚ) :=
  randomBurstsGo chance burstDuration normalInterval maxBurst r b u numQtasks.toNat
    0 0 base []

/-- `generate_random_bursts` (lines 177-212). -/
def generate_random_bursts (pick : ℕ → α) (numQtasks : ℤ) (chance : ℚ)
    (burstDuration : ℚ) (maxBurst : ℤ) (normalInterval : ℚ) (base : ℚ)
    (r : ℕ → ℚ) (b : ℕ → ℕ) (u : ℕ → ℚ) : Except Err (List (Row α)) := do
  let tasks ← sample pick numQtasks
  let ts ← randomBurstsTimestamps numQtasks chance burstDuration maxBurst
    normalInterval base r b u
  let rows ← attachTimestamps tasks (ts.take numQtasks.toNat)
  pure (insertSubset rows)

/-- `map_invocation_times` (lines 214-234): `num_qtasks = len(invocation_times)`,
sample, raise if the `timestamp` column is absent, else attach the supplied column
verbatim and insert the subset column.  The input log is modelled as its row count,
plus its `timestamp` column when present (`invocationCol`), aligned positionally. -/
def map_invocation_times (pick : ℕ → α) (numRows : ℕ) (invocationCol : Option (List ℚ)) :
    Except Err (List (Row α)) := do
  let tasks ← sample pick (numRows : ℤ)
  match invocationCol with
  | none => Except.error Err.missingField
  | some ts => do
    let rows ← attachTimestamps tasks ts
    pure (insertSubset rows)

/-- Invariant of the moving-cursor generation loops: the accumulated timestamps are
pairwise-adjacent non-decreasing, each lies between `base` and the cursor, and the
cursor is at or after `base`. -/
def StateOK (base : ℚ) (acc : List ℚ) (cur : ℚ) : Prop :=
  List.Chain' (fun a b => a ≤ b) acc ∧ (∀ t ∈ acc, base ≤ t ∧ t ≤ cur) ∧ base ≤ cur

/-- The output-record schema of the strategies that insert the subset column:
leading `subset 1` cell, the task cell, then the timestamp cell. -/
def RowHasSchema (row : Row α) : Prop :=
  ∃ a t, row = [Cell.subset 1, Cell.task a, Cell.timestamp t]

/-- The output-record shape of `simulate_ramp_down`: task cell then timestamp cell,
with no subset cell. -/
def RowNoSubset (row : Row α) : Prop :=
  ∃ a t, row = [Cell.task a, Cell.timestamp t]

/-- The seven generator strategies of the class. -/
inductive Strategy : Type where
  | singleSpike : Strategy
  | bursty : Strategy
  | regularSpikes : Strategy
  | rampUp : Strategy
  | rampDown : Strategy
  | randomBursts : Strategy
  | mapInvocation : Strategy
deriving DecidableEq, Repr

/-- `generate_workload` (lines 237-261), projected onto which strategy a scenario
identifier dispatches to; unknown identifiers raise `ValueError`. -/
def generate_workload (scenario : ℤ) : Except Err Strategy :=
  if scenario = 1 then Except.ok Strategy.bursty
  else if scenario = 2 then Except.ok Strategy.regularSpikes
  else if scenario = 3 then Except.ok Strategy.rampUp
  else if scenario = 4 then Except.ok Strategy.rampDown
  else if scenario = 5 then Except.ok Strategy.randomBursts
  else if scenario = 6 then Except.ok Strategy.mapInvocation
  else Except.error Err.invalidParameter

theorem burstInner_length_mono (u : ℕ → ℚ) (dur : ℚ) (n : ℕ) :
    ∀ s i cur acc, acc.length ≤ (burstInner u dur n s i cur acc).1.length := by
  intro s
  induction s with
  | zero => intro i cur acc; simp [burstInner]
  | succ s ih =>
    intro i cur acc
    simp only [burstInner]
    split
    · exact le_refl _
    · calc acc.length ≤ (acc ++ [cur]).length := by simp
        _ ≤ _ := ih (i + 1) (cur + u i * dur) (acc ++ [cur])

theorem burstInner_length_lt (u : ℕ → ℚ) (dur : ℚ) (n : ℕ) :
    ∀ s i cur acc, 1 ≤ s → acc.length < n →
      acc.length < (burstInner u dur n s i cur acc).1.length := by
  intro s i cur acc hs hn
  match s, hs with
  | s + 1, _ =>
    simp only [burstInner]
    rw [if_neg (by omega)]
    calc acc.length < (acc ++ [cur]).length := by simp
      _ ≤ _ := burstInner_length_mono u dur n s (i + 1) (cur + u i * dur) (acc ++ [cur])

theorem chain_le_snoc {acc : List ℚ} {x : ℚ}
    (hc : List.Chain' (fun a b => a ≤ b) acc) (hb : ∀ t ∈ acc, t ≤ x) :
    List.Chain' (fun a b => a ≤ b) (acc ++ [x]) := by
  refine List.Chain'.append hc (List.chain'_singleton x) ?_
  intro a ha y hy
  simp only [List.head?_cons, Option.mem_def, Option.some.injEq] at hy
  subst hy
  obtain ⟨h1, h2⟩ := List.mem_getLast?_eq_getLast ha
  exact h2 ▸ hb _ (List.getLast_mem h1)

theorem chain_cons_base {base : ℚ} {ts : List ℚ}
    (h : List.Chain' (fun a b => a ≤ b) (base :: ts)) :
    (∀ t ∈ ts, base ≤ t) ∧ List.Chain' (fun a b => a ≤ b) ts := by
  constructor
  · have hp := List.chain'_iff_pairwise.mp h
    intro t ht
    exact (List.pairwise_cons.mp hp).1 t ht
  · exact h.tail

theorem StateOK.start (base : ℚ) : StateOK base [] base := by
  refine ⟨List.chain'_nil, ?_, le_refl base⟩
  intro t ht
  simp at ht

theorem StateOK.snoc {base cur d : ℚ} {acc : List ℚ} (h : StateOK base acc cur)
    (hd : 0 ≤ d) : StateOK base (acc ++ [cur]) (cur + d) := by
  obtain ⟨hc, hbnd, hbc⟩ := h
  refine ⟨chain_le_snoc hc (fun t ht => (hbnd t ht).2), ?_, by linarith⟩
  intro t ht
  rcases List.mem_append.mp ht with h1 | h2
  · exact ⟨(hbnd t h1).1, by linarith [(hbnd t h1).2]⟩
  · simp only [List.mem_singleton] at h2
    subst h2
    exact ⟨hbc, by linarith⟩

theorem StateOK.snocNew {base cur d : ℚ} {acc : List ℚ} (h : StateOK base acc cur)
    (hd : 0 ≤ d) : StateOK base (acc ++ [cur + d]) (cur + d) := by
  obtain ⟨hc, hbnd, hbc⟩ := h
  refine ⟨chain_le_snoc hc (fun t ht => by linarith [(hbnd t ht).2]), ?_, by linarith⟩
  intro t ht
  rcases List.mem_append.mp ht with h1 | h2
  · exact ⟨(hbnd t h1).1, by linarith [(hbnd t h1).2]⟩
  · simp only [List.mem_singleton] at h2
    subst h2
    exact ⟨by linarith, le_refl _⟩

theorem StateOK.advance {base cur d : ℚ} {acc : List ℚ} (h : StateOK base acc cur)
    (hd : 0 ≤ d) : StateOK base acc (cur + d) := by
  obtain ⟨hc, hbnd, hbc⟩ := h
  refine ⟨hc, ?_, by linarith⟩
  intro t ht
  exact ⟨(hbnd t ht).1, by linarith [(hbnd t ht).2]⟩

theorem StateOK.out {base cur : ℚ} {acc : List ℚ} (h : StateOK base acc cur) :
    List.Chain' (fun a b => a ≤ b) acc ∧ ∀ t ∈ acc, base ≤ t :=
  ⟨h.1, fun t ht => (h.2.1 t ht).1⟩

theorem spikeBurstGo_chain {u : ℕ → ℚ} {dur : ℚ} (hd : 0 ≤ dur) (hu : ∀ k, 0 ≤ u k) :
    ∀ k i cur, List.Chain' (fun a b => a ≤ b) (cur :: (spikeBurstGo u dur k i cur).1) := by
  intro k
  induction k with
  | zero => intro i cur; simp [spikeBurstGo]
  | succ k ih =>
    intro i cur
    simp only [spikeBurstGo]
    refine List.Chain'.cons ?_ (ih (i + 1) (cur + u i * dur))
    nlinarith [hu i]

theorem spikeBurstGo_getLast {u : ℕ → ℚ} {dur : ℚ} :
    ∀ k i cur, (cur :: (spikeBurstGo u dur k i cur).1).getLast? =
      some (spikeBurstGo u dur k i cur).2 := by
  intro k
  induction k with
  | zero => intro i cur; simp [spikeBurstGo]
  | succ k ih =>
    intro i cur
    simp only [spikeBurstGo]
    rw [List.getLast?_cons_cons]
    exact ih (i + 1) (cur + u i * dur)

theorem normalGo_chain {step : ℚ} (hs : 0 ≤ step) :
    ∀ k cur, List.Chain' (fun a b => a ≤ b) (cur :: normalGo step k cur) := by
  intro k
  induction k with
  | zero => intro cur; simp [normalGo]
  | succ k ih =>
    intro cur
    simp only [normalGo]
    exact List.Chain'.cons (by linarith) (ih (cur + step))

theorem burstInner_stateOK {base : ℚ} {u : ℕ → ℚ} {dur : ℚ} {n : ℕ}
    (hd : 0 ≤ dur) (hu : ∀ k, 0 ≤ u k) :
    ∀ s i cur acc, StateOK base acc cur →
      StateOK base (burstInner u dur n s i cur acc).1 (burstInner u dur n s i cur acc).2.1 := by
  intro s
  induction s with
  | zero => intro i cur acc h; simpa [burstInner] using h
  | succ s ih =>
    intro i cur acc h
    simp only [burstInner]
    split
    · exact h
    · exact ih (i + 1) (cur + u i * dur) (acc ++ [cur]) (h.snoc (mul_nonneg (hu i) hd))

theorem burstyBurstGo_stateOK {base : ℚ} {u : ℕ → ℚ} {slice : ℚ} {n : ℕ}
    (hs : 0 ≤ slice) (hu : ∀ k, 0 ≤ u k) :
    ∀ k i cur acc, StateOK base acc cur →
      StateOK base (burstyBurstGo u slice n k i cur acc).1
        (burstyBurstGo u slice n k i cur acc).2 := by
  intro k
  induction k with
  | zero => intro i cur acc h; simpa [burstyBurstGo] using h
  | succ k ih =>
    intro i cur acc h
    simp only [burstyBurstGo]
    split
    · exact h
    · exact ih (i + 1) (cur + u i * slice) (acc ++ [cur]) (h.snoc (mul_nonneg (hu i) hs))

theorem idleFill_stateOK {base : ℚ} {low : ℚ} {n : ℕ} (hl : 0 ≤ low) (cur : ℚ) (acc : List ℚ) :
    StateOK base acc cur → ∃ c, StateOK base (idleFill low n cur acc) c := by
  induction cur, acc using idleFill.induct low n with
  | case1 cur acc h =>
    intro hs
    unfold idleFill
    rw [dif_pos h]
    exact ⟨cur, hs⟩
  | case2 cur acc h ih =>
    intro hs
    unfold idleFill
    rw [dif_neg h]
    exact ih (hs.snoc hl)

theorem randomBurstsGo_stateOK {base chance dur ni : ℚ} {maxB : ℤ} {r : ℕ → ℚ}
    {b : ℕ → ℕ} {u : ℕ → ℚ} {n : ℕ} (hd : 0 ≤ dur) (hni : 0 ≤ ni) (hu : ∀ k, 0 ≤ u k) :
    ∀ (j i : ℕ) (cur : ℚ) (acc : List ℚ), StateOK base acc cur →
      ∀ l, randomBurstsGo chance dur ni maxB r b u n j i cur acc = Except.ok l →
        ∃ c, StateOK base l c := by
  intro j i cur acc
  induction j, i, cur, acc using randomBurstsGo.induct chance dur ni maxB r b u n with
  | case1 j i cur acc h =>
    intro hs l hl
    unfold randomBurstsGo at hl
    rw [dif_pos h] at hl
    obtain rfl := Except.ok.inj hl
    exact ⟨cur, hs⟩
  | case2 j i cur acc h h2 h3 =>
    intro hs l hl
    unfold randomBurstsGo at hl
    rw [dif_neg h, if_pos h2, dif_pos h3] at hl
    exact absurd hl (by simp)
  | case3 j i cur acc h h2 h3 q ih =>
    intro hs l hl
    unfold randomBurstsGo at hl
    rw [dif_neg h, if_pos h2, dif_neg h3] at hl
    exact ih (burstInner_stateOK hd hu _ i cur acc hs) l hl
  | case4 j i cur acc h h2 ih =>
    intro hs l hl
    unfold randomBurstsGo at hl
    rw [dif_neg h, if_neg h2] at hl
    exact ih (hs.snoc hni) l hl

theorem regularSpikesGo_stateOK {base si ni : ℚ} {st : ℤ} {u : ℕ → ℚ} {n : ℕ}
    (hsi : 0 ≤ si) (hni : 0 ≤ ni) (hu : ∀ k, 0 ≤ u k) :
    ∀ k iIdx uIdx cur acc, StateOK base acc cur →
      ∀ l, regularSpikesGo u si ni st n k iIdx uIdx cur acc = Except.ok l →
        ∃ c, StateOK base l c := by
  intro k
  induction k with
  | zero =>
    intro iIdx uIdx cur acc hs l hl
    simp only [regularSpikesGo] at hl
    obtain rfl := Except.ok.inj hl
    exact ⟨cur, hs⟩
  | succ k ih =>
    intro iIdx uIdx cur acc hs l hl
    simp only [regularSpikesGo] at hl
    by_cases h0 : st = 0
    · rw [if_pos h0] at hl
      exact absurd hl (by simp)
    · rw [if_neg h0] at hl
      by_cases hsp : (iIdx : ℤ) % st = 0 ∧ iIdx ≠ 0
      · rw [if_pos hsp] at hl
        by_cases hstp : 1 ≤ st
        · have hdur : 0 ≤ si / (st : ℚ) :=
            div_nonneg hsi (by exact_mod_cast Int.le_of_lt (by omega))
          exact ih _ _ _ _ (burstInner_stateOK hdur hu _ _ _ _ (hs.advance hsi)) l hl
        · have ht0 : st.toNat = 0 := by omega
          rw [ht0] at hl
          simp only [burstInner] at hl
          exact ih _ _ _ _ (hs.advance hsi) l hl
      · rw [if_neg hsp] at hl
        exact ih _ _ _ _ (hs.snoc hni) l hl

theorem singleSpikeTimestamps_chain {n bt : ℤ} {dur ni base : ℚ} {u : ℕ → ℚ}
    (hd : 0 ≤ dur) (hni : 0 ≤ ni) (hu : ∀ k, 0 ≤ u k) :
    List.Chain' (fun a b => a ≤ b) (base :: singleSpikeTimestamps n bt dur ni base u) := by
  unfold singleSpikeTimestamps
  rw [← List.cons_append, List.chain'_append]
  refine ⟨spikeBurstGo_chain hd hu _ 0 base, (normalGo_chain hni _ _).tail, ?_⟩
  intro x hx y hy
  rw [spikeBurstGo_getLast] at hx
  simp only [Option.mem_def, Option.some.injEq] at hx
  subst hx
  exact (normalGo_chain hni _ _).rel_head? hy

theorem burstyTimestamps_stateOK {n bt : ℤ} {dur low base : ℚ} {u : ℕ → ℚ}
    (hd : 0 ≤ dur) (hlow : 0 ≤ low) (hu : ∀ k, 0 ≤ u k) :
    ∃ c, StateOK base (burstyTimestamps n bt dur low base u) c := by
  unfold burstyTimestamps
  by_cases hbt : 1 ≤ bt
  · have hslice : 0 ≤ dur / (bt : ℚ) :=
      div_nonneg hd (by exact_mod_cast Int.le_of_lt (by omega))
    exact idleFill_stateOK hlow _ _
      (burstyBurstGo_stateOK hslice hu _ _ _ _ (StateOK.start base))
  · have ht0 : bt.toNat = 0 := by omega
    rw [ht0]
    simp only [burstyBurstGo]
    exact idleFill_stateOK hlow _ _ (StateOK.start base)

/-- C5: for the Single Spike, Bursty-then-Idle, Regular Spikes and Random Bursts
strategies, with non-negative duration and interval parameters and uniform draws in
[0, 1], every produced timestamp is at or after `base`, and the produced sequence is
non-decreasing (adjacent-pairwise `≤`). -/
theorem C5_timestamps_after_base (numQtasks burstTasks spikeTasks maxBurst : ℤ)
    (burstDuration normalInterval lowActivityInterval spikeInterval chance base : ℚ)
    (u r : ℕ → ℚ) (b : ℕ → ℕ)
    (hdur : 0 ≤ burstDuration) (hni : 0 ≤ normalInterval)
    (hlow : 0 ≤ lowActivityInterval) (hsi : 0 ≤ spikeInterval)
    (hu : ∀ k, 0 ≤ u k ∧ u k ≤ 1) :
    ((∀ t ∈ singleSpikeTimestamps numQtasks burstTasks burstDuration normalInterval base u,
        base ≤ t) ∧
      List.Chain' (fun a b => a ≤ b)
        (singleSpikeTimestamps numQtasks burstTasks burstDuration normalInterval base u)) ∧
    ((∀ t ∈ burstyTimestamps numQtasks burstTasks burstDuration lowActivityInterval base u,
        base ≤ t) ∧
      List.Chain' (fun a b => a ≤ b)
        (burstyTimestamps numQtasks burstTasks burstDuration lowActivityInterval base u)) ∧
    (∀ l, regularSpikesTimestamps numQtasks spikeInterval spikeTasks normalInterval base u =
        Except.ok l → (∀ t ∈ l, base ≤ t) ∧ List.Chain' (fun a b => a ≤ b) l) ∧
    (∀ l, randomBurstsTimestamps numQtasks chance burstDuration maxBurst normalInterval base
        r b u = Except.ok l → (∀ t ∈ l, base ≤ t) ∧ List.Chain' (fun a b => a ≤ b) l) := by
  have hu0 : ∀ k, 0 ≤ u k := fun k => (hu k).1
  refine ⟨?_, ?_, ?_, ?_⟩
  · exact chain_cons_base
      (@singleSpikeTimestamps_chain numQtasks burstTasks burstDuration normalInterval base u
        hdur hni hu0)
  · obtain ⟨c, hsok⟩ :=
      @burstyTimestamps_stateOK numQtasks burstTasks burstDuration lowActivityInterval base u
        hdur hlow hu0
    exact ⟨hsok.out.2, hsok.out.1⟩
  · intro l hl
    unfold regularSpikesTimestamps at hl
    obtain ⟨c, hsok⟩ :=
      @regularSpikesGo_stateOK base spikeInterval normalInterval spikeTasks u numQtasks.toNat
        hsi hni hu0 _ _ _ _ _ (StateOK.start base) l hl
    exact ⟨hsok.out.2, hsok.out.1⟩
  · intro l hl
    unfold randomBurstsTimestamps at hl
    obtain ⟨c, hsok⟩ :=
      @randomBurstsGo_stateOK base chance burstDuration normalInterval maxBurst r b u
        numQtasks.toNat hdur hni hu0 _ _ _ _ (StateOK.start base) l hl
    exact ⟨hsok.out.2, hsok.out.1⟩

theorem C5_timestamps_after_base_witness :
    List.Chain' (fun a b => a ≤ b) (singleSpikeTimestamps 2 1 4 1 0 (fun _ => 1/2)) :=
  ((C5_timestamps_after_base 2 1 1 1 4 1 1 1 (1/2) 0 (fun _ => 1/2) (fun _ => 1/2)
    (fun _ => 0) (by norm_num) (by norm_num) (by norm_num) (by norm_num)
    (fun k => by norm_num)).1).2

theorem range_map_affine (m : ℕ) (c d : ℚ) :
    (List.range (m + 1)).map (fun k : ℕ => c + (k : ℚ) * d) =
      c :: (List.range m).map (fun k : ℕ => (c + d) + (k : ℚ) * d) := by
  rw [List.range_succ_eq_map, List.map_cons, List.map_map]
  congr 1
  · norm_num
  · apply List.map_congr_left
    intro k hk
    simp only [Function.comp_apply]
    push_cast
    ring

theorem randomBurstsGo_zero_chance {dur ni : ℚ} {maxB : ℤ} {r : ℕ → ℚ} {b : ℕ → ℕ}
    {u : ℕ → ℚ} {n : ℕ} (hr : ∀ j, 0 ≤ r j) :
    ∀ (j i : ℕ) (cur : ℚ) (acc : List ℚ), acc.length ≤ n →
      randomBurstsGo 0 dur ni maxB r b u n j i cur acc =
        Except.ok (acc ++ (List.range (n - acc.length)).map (fun k : ℕ => cur + (k : ℚ) * ni)) := by
  intro j i cur acc
  induction j, i, cur, acc using randomBurstsGo.induct 0 dur ni maxB r b u n with
  | case1 j i cur acc h =>
    intro hle
    unfold randomBurstsGo
    rw [dif_pos h]
    have h0 : n - acc.length = 0 := by omega
    rw [h0]
    simp
  | case2 j i cur acc h h2 h3 =>
    exact absurd h2 (not_lt.mpr (hr j))
  | case3 j i cur acc h h2 h3 q ih =>
    exact absurd h2 (not_lt.mpr (hr j))
  | case4 j i cur acc h h2 ih =>
    intro hle
    unfold randomBurstsGo
    rw [dif_neg h, if_neg h2]
    rw [ih (by simp only [List.length_append, List.length_cons, List.length_nil]; omega)]
    have hlt : acc.length < n := by omega
    have hsplit : n - acc.length = (n - acc.length - 1) + 1 := by omega
    rw [List.length_append, List.length_cons, List.length_nil]
    rw [show n - (acc.length + (0 + 1)) = n - acc.length - 1 from by omega]
    rw [hsplit, range_map_affine]
    rw [show n - acc.length - 1 + 1 - 1 = n - acc.length - 1 from by omega]
    rw [List.append_assoc, List.singleton_append]

theorem gapsOf_cons_cons (a b : ℚ) (l : List ℚ) :
    gapsOf (a :: b :: l) = (b - a) :: gapsOf (b :: l) := rfl

theorem gapsOf_range_map_affine (c d : ℚ) : ∀ m : ℕ,
    gapsOf ((List.range m).map (fun k : ℕ => c + (k : ℚ) * d)) =
      List.replicate (m - 1) d := by
  have key : ∀ (m : ℕ) (c : ℚ),
      gapsOf ((List.range m).map (fun k : ℕ => c + (k : ℚ) * d)) =
        List.replicate (m - 1) d := by
    intro m
    induction m with
    | zero => intro c; simp [gapsOf]
    | succ m ih =>
      intro c
      rw [range_map_affine]
      cases m with
      | zero => simp [gapsOf]
      | succ m' =>
        rw [range_map_affine, gapsOf_cons_cons, ← range_map_affine, ih (c + d)]
        have hd : c + d - c = d := by ring
        rw [hd]
        rfl
  exact fun m => key m c

/-- C6: `generate_random_bursts` with `burst_chance = 0` (and `n ≥ 1`,
`max_tasks_in_burst ≥ 1`) produces exactly the regular sequence
`base, base + ni, base + 2*ni, ...` of `n` timestamps, whose inter-arrival gaps are
constantly `normal_interval`. -/
theorem C6_zero_chance_regular (numQtasks maxBurst : ℤ) (dur ni base : ℚ)
    (r u : ℕ → ℚ) (b : ℕ → ℕ)
    (hn : 1 ≤ numQtasks) (hm : 1 ≤ maxBurst) (hr : ∀ j, 0 ≤ r j) :
    randomBurstsTimestamps numQtasks 0 dur maxBurst ni base r b u =
      Except.ok ((List.range numQtasks.toNat).map (fun k : ℕ => base + (k : ℚ) * ni)) ∧
    ((List.range numQtasks.toNat).map (fun k : ℕ => base + (k : ℚ) * ni)).length =
      numQtasks.toNat ∧
    gapsOf ((List.range numQtasks.toNat).map (fun k : ℕ => base + (k : ℚ) * ni)) =
      List.replicate (numQtasks.toNat - 1) ni := by
  refine ⟨?_, by simp, gapsOf_range_map_affine base ni numQtasks.toNat⟩
  unfold randomBurstsTimestamps
  rw [randomBurstsGo_zero_chance hr 0 0 base [] (by simp)]
  simp

theorem idleFill_length {low : ℚ} {n : ℕ} :
    ∀ (cur : ℚ) (acc : List ℚ), (idleFill low n cur acc).length = max n acc.length := by
  intro cur acc
  induction cur, acc using idleFill.induct low n with
  | case1 cur acc h =>
    unfold idleFill
    rw [dif_pos h]
    omega
  | case2 cur acc h ih =>
    unfold idleFill
    rw [dif_neg h, ih]
    simp only [List.length_append, List.length_cons, List.length_nil]
    omega

theorem idleFill_extends {low : ℚ} {n : ℕ} :
    ∀ (cur : ℚ) (acc : List ℚ), ∃ ext, idleFill low n cur acc = acc ++ ext := by
  intro cur acc
  induction cur, acc using idleFill.induct low n with
  | case1 cur acc h =>
    refine ⟨[], ?_⟩
    unfold idleFill
    rw [dif_pos h, List.append_nil]
  | case2 cur acc h ih =>
    obtain ⟨ext, hext⟩ := ih
    refine ⟨cur :: ext, ?_⟩
    unfold idleFill
    rw [dif_neg h, hext, List.append_assoc, List.singleton_append]

theorem burstInner_extends {u : ℕ → ℚ} {dur : ℚ} {n : ℕ} :
    ∀ s i cur (acc : List ℚ), ∃ ext, (burstInner u dur n s i cur acc).1 = acc ++ ext := by
  intro s
  induction s with
  | zero => intro i cur acc; exact ⟨[], by simp [burstInner]⟩
  | succ s ih =>
    intro i cur acc
    simp only [burstInner]
    split
    · exact ⟨[], by simp⟩
    · obtain ⟨ext, hext⟩ := ih (i + 1) (cur + u i * dur) (acc ++ [cur])
      exact ⟨cur :: ext, by rw [hext, List.append_assoc, List.singleton_append]⟩

theorem burstyBurstGo_extends {u : ℕ → ℚ} {slice : ℚ} {n : ℕ} :
    ∀ k i cur (acc : List ℚ), ∃ ext, (burstyBurstGo u slice n k i cur acc).1 = acc ++ ext := by
  intro k
  induction k with
  | zero => intro i cur acc; exact ⟨[], by simp [burstyBurstGo]⟩
  | succ k ih =>
    intro i cur acc
    simp only [burstyBurstGo]
    split
    · exact ⟨[], by simp⟩
    · obtain ⟨ext, hext⟩ := ih (i + 1) (cur + u i * slice) (acc ++ [cur])
      exact ⟨cur :: ext, by rw [hext, List.append_assoc, List.singleton_append]⟩

theorem randomBurstsGo_ok {chance dur ni : ℚ} {maxB : ℤ} {r : ℕ → ℚ} {b : ℕ → ℕ}
    {u : ℕ → ℚ} {n : ℕ} (hm : 1 ≤ maxB) :
    ∀ (j i : ℕ) (cur : ℚ) (acc : List ℚ),
      ∃ l, randomBurstsGo chance dur ni maxB r b u n j i cur acc = Except.ok l ∧
        n ≤ l.length ∧ ∃ ext, l = acc ++ ext := by
  intro j i cur acc
  induction j, i, cur, acc using randomBurstsGo.induct chance dur ni maxB r b u n with
  | case1 j i cur acc h =>
    refine ⟨acc, ?_, by omega, [], by simp⟩
    unfold randomBurstsGo
    rw [dif_pos h]
  | case2 j i cur acc h h2 h3 =>
    omega
  | case3 j i cur acc h h2 h3 q ih =>
    obtain ⟨l, hl, hlen, ext, hext⟩ := ih
    refine ⟨l, ?_, hlen, ?_⟩
    · unfold randomBurstsGo
      rw [dif_neg h, if_pos h2, dif_neg h3]
      exact hl
    · obtain ⟨ext2, hext2⟩ := @burstInner_extends u dur n (b j % maxB.toNat + 1) i cur acc
      exact ⟨ext2 ++ ext, by rw [hext, hext2, List.append_assoc]⟩
  | case4 j i cur acc h h2 ih =>
    obtain ⟨l, hl, hlen, ext, hext⟩ := ih
    refine ⟨l, ?_, hlen, cur :: ext, ?_⟩
    · unfold randomBurstsGo
      rw [dif_neg h, if_neg h2]
      exact hl
    · rw [hext, List.append_assoc, List.singleton_append]

/-- C8: the generation loops terminate in a bounded number of steps: the
`generate_random_bursts` while-loop (given `max_tasks_in_burst ≥ 1`) returns
successfully with at least `n` timestamps; the `generate_bursty_dataset` while-loop
returns exactly `max n acc.length` timestamps (one appended per iteration until the
count reaches `n`); and each inner burst iteration adds at least one timestamp while
the count is below `n`. -/
theorem C8_loops_terminate (numQtasks maxBurst : ℤ) (chance dur ni low base : ℚ)
    (r u : ℕ → ℚ) (b : ℕ → ℕ) (n s i : ℕ) (cur : ℚ) (acc : List ℚ)
    (hm : 1 ≤ maxBurst) :
    (∃ l, randomBurstsTimestamps numQtasks chance dur maxBurst ni base r b u =
        Except.ok l ∧ numQtasks.toNat ≤ l.length) ∧
    (idleFill low n cur acc).length = max n acc.length ∧
    (1 ≤ s → acc.length < n → acc.length < (burstInner u dur n s i cur acc).1.length) := by
  refine ⟨?_, idleFill_length cur acc,
    fun hs hlt => burstInner_length_lt u dur n s i cur acc hs hlt⟩
  unfold randomBurstsTimestamps
  obtain ⟨l, hl, hlen, _⟩ := randomBurstsGo_ok hm 0 0 base []
  exact ⟨l, hl, hlen⟩

theorem C8_loops_terminate_witness :
    (idleFill 1 3 0 []).length = max 3 ([] : List ℚ).length :=
  (C8_loops_terminate 1 1 0 1 1 1 0 (fun _ => 0) (fun _ => 0) (fun _ => 0) 3 1 0 0 []
    (by norm_num)).2.1

theorem head?_append_or (l l2 : List ℚ) (x : ℚ) :
    (l ++ x :: l2).head? = l.head?.or (some x) := by
  cases l <;> simp

theorem burstInner_head {u : ℕ → ℚ} {dur : ℚ} {n : ℕ} :
    ∀ s i cur (acc : List ℚ), acc.length < n → 1 ≤ s →
      ∃ ext, (burstInner u dur n s i cur acc).1 = acc ++ cur :: ext := by
  intro s i cur acc hlt hs
  match s, hs with
  | s + 1, _ =>
    simp only [burstInner]
    rw [if_neg (by omega)]
    obtain ⟨ext, hext⟩ := burstInner_extends s (i + 1) (cur + u i * dur) (acc ++ [cur])
    exact ⟨ext, by rw [hext, List.append_assoc, List.singleton_append]⟩

theorem randomBurstsGo_head {chance dur ni : ℚ} {maxB : ℤ} {r : ℕ → ℚ} {b : ℕ → ℕ}
    {u : ℕ → ℚ} {n : ℕ} :
    ∀ (j i : ℕ) (cur : ℚ) (acc : List ℚ), acc.length < n →
      ∀ l, randomBurstsGo chance dur ni maxB r b u n j i cur acc = Except.ok l →
        l.head? = (acc ++ [cur]).head? := by
  intro j i cur acc
  induction j, i, cur, acc using randomBurstsGo.induct chance dur ni maxB r b u n with
  | case1 j i cur acc h =>
    intro hlt
    exact absurd hlt (by omega)
  | case2 j i cur acc h h2 h3 =>
    intro hlt l hl
    unfold randomBurstsGo at hl
    rw [dif_neg h, if_pos h2, dif_pos h3] at hl
    exact absurd hl (by simp)
  | case3 j i cur acc h h2 h3 q ih =>
    intro hlt l hl
    unfold randomBurstsGo at hl
    rw [dif_neg h, if_pos h2, dif_neg h3] at hl
    obtain ⟨ext, hext⟩ := burstInner_head (b j % maxB.toNat + 1) i cur acc hlt (by omega)
    have hextq : q.1 = acc ++ cur :: ext := hext
    by_cases hq : q.1.length < n
    · rw [ih hq l hl, hextq, List.append_assoc]
      rw [List.cons_append]
      rw [head?_append_or, head?_append_or]
    · unfold randomBurstsGo at hl
      rw [dif_pos (show (burstInner u dur n (b j % maxB.toNat + 1) i cur acc).1.length ≥ n
        from not_lt.mp hq)] at hl
      obtain rfl := Except.ok.inj hl
      rw [hextq, head?_append_or, head?_append_or]
  | case4 j i cur acc h h2 ih =>
    intro hlt l hl
    unfold randomBurstsGo at hl
    rw [dif_neg h, if_neg h2] at hl
    by_cases hq : (acc ++ [cur]).length < n
    · rw [ih hq l hl, List.append_assoc, List.singleton_append]
      rw [head?_append_or, head?_append_or]
    · unfold randomBurstsGo at hl
      rw [dif_pos (by omega)] at hl
      obtain rfl := Except.ok.inj hl
      rfl

theorem regularSpikesGo_ok_extends {si ni : ℚ} {st : ℤ} {u : ℕ → ℚ} {n : ℕ}
    (hst : st ≠ 0) :
    ∀ k iIdx uIdx cur (acc : List ℚ),
      ∃ l, regularSpikesGo u si ni st n k iIdx uIdx cur acc = Except.ok l ∧
        ∃ ext, l = acc ++ ext := by
  intro k
  induction k with
  | zero =>
    intro iIdx uIdx cur acc
    exact ⟨acc, by simp [regularSpikesGo], [], by simp⟩
  | succ k ih =>
    intro iIdx uIdx cur acc
    simp only [regularSpikesGo]
    rw [if_neg hst]
    by_cases hsp : (iIdx : ℤ) % st = 0 ∧ iIdx ≠ 0
    · rw [if_pos hsp]
      obtain ⟨l, hl, ext, hext⟩ := ih (iIdx + 1)
        (burstInner u (si / (st : ℚ)) n st.toNat uIdx (cur + si) acc).2.2
        (burstInner u (si / (st : ℚ)) n st.toNat uIdx (cur + si) acc).2.1
        (burstInner u (si / (st : ℚ)) n st.toNat uIdx (cur + si) acc).1
      refine ⟨l, hl, ?_⟩
      obtain ⟨ext2, hext2⟩ := burstInner_extends st.toNat uIdx (cur + si) acc
      exact ⟨ext2 ++ ext, by rw [hext, hext2, List.append_assoc]⟩
    · rw [if_neg hsp]
      obtain ⟨l, hl, ext, hext⟩ := ih (iIdx + 1) uIdx (cur + ni) (acc ++ [cur])
      exact ⟨l, hl, cur :: ext, by rw [hext, List.append_assoc, List.singleton_append]⟩

/-- C9: for `n ≥ 1`, the first timestamp of Bursty-then-Idle, Regular Spikes
(given `spike_tasks ≠ 0`) and Random Bursts (given `max_tasks_in_burst ≥ 1`) equals
`base` exactly (the cursor is emitted before it is first advanced), whereas
Single Spike's first timestamp (given `burst_tasks ≥ 1`) is `base` plus the fresh
draw `u 0 * burst_duration`, strictly later whenever that draw is positive. -/
theorem C9_first_timestamp (numQtasks burstTasks spikeTasks maxBurst : ℤ)
    (dur ni low si chance base : ℚ) (u r : ℕ → ℚ) (b : ℕ → ℕ)
    (hn : 1 ≤ numQtasks) :
    (burstyTimestamps numQtasks burstTasks dur low base u).head? = some base ∧
    (spikeTasks ≠ 0 →
      ∃ l, regularSpikesTimestamps numQtasks si spikeTasks ni base u = Except.ok l ∧
        l.head? = some base) ∧
    (1 ≤ maxBurst →
      ∃ l, randomBurstsTimestamps numQtasks chance dur maxBurst ni base r b u =
        Except.ok l ∧ l.head? = some base) ∧
    (1 ≤ burstTasks →
      (singleSpikeTimestamps numQtasks burstTasks dur ni base u).head? =
        some (base + u 0 * dur) ∧
      (0 < u 0 * dur → base < base + u 0 * dur)) := by
  have hn' : 1 ≤ numQtasks.toNat := by omega
  refine ⟨?_, ?_, ?_, ?_⟩
  · unfold burstyTimestamps
    cases hbt : burstTasks.toNat with
    | zero =>
      simp only [burstyBurstGo]
      unfold idleFill
      rw [dif_neg (by simp only [List.length_nil]; omega)]
      simp only [List.nil_append]
      obtain ⟨ext2, hext2⟩ := idleFill_extends (base + low) [base]
      rw [hext2, List.singleton_append]
      rfl
    | succ k =>
      simp only [burstyBurstGo]
      rw [if_neg (by simp only [List.length_nil]; omega)]
      simp only [List.nil_append]
      obtain ⟨ext, hext⟩ := burstyBurstGo_extends k 1
        (base + u 0 * (dur / (burstTasks : ℚ))) [base]
      obtain ⟨ext2, hext2⟩ := idleFill_extends
        (burstyBurstGo u (dur / (burstTasks : ℚ)) numQtasks.toNat k 1
          (base + u 0 * (dur / (burstTasks : ℚ))) [base]).2
        (burstyBurstGo u (dur / (burstTasks : ℚ)) numQtasks.toNat k 1
          (base + u 0 * (dur / (burstTasks : ℚ))) [base]).1
      rw [hext2, hext, List.append_assoc, List.singleton_append]
      rfl
  · intro hst
    unfold regularSpikesTimestamps
    obtain ⟨m, hm⟩ : ∃ m, numQtasks.toNat = m + 1 := ⟨numQtasks.toNat - 1, by omega⟩
    rw [hm]
    simp only [regularSpikesGo]
    rw [if_neg hst, if_neg (by simp)]
    simp only [List.nil_append]
    obtain ⟨l, hl, ext, hext⟩ := regularSpikesGo_ok_extends hst m 1 0 (base + ni) [base]
    refine ⟨l, hl, ?_⟩
    rw [hext, List.singleton_append]
    rfl
  · intro hmb
    unfold randomBurstsTimestamps
    obtain ⟨l, hl, hlen, ext, hext⟩ := randomBurstsGo_ok hmb 0 0 base []
    refine ⟨l, hl, ?_⟩
    have hh := randomBurstsGo_head 0 0 base [] (by simp only [List.length_nil]; omega) l hl
    rw [hh]
    rfl
  · intro hbt
    constructor
    · unfold singleSpikeTimestamps
      obtain ⟨m, hm⟩ : ∃ m, burstTasks.toNat = m + 1 := ⟨burstTasks.toNat - 1, by omega⟩
      rw [hm]
      simp only [spikeBurstGo]
      rfl
    · intro hpos
      linarith

theorem rampUpGo_head_eq (init step : ℚ) (m i : ℕ) (cur : ℚ) :
    (rampUpGo init step (m + 1) i cur).head? = some cur := rfl

theorem rampDownGo_head_eq (init step : ℚ) (m i : ℕ) (cur : ℚ) :
    (rampDownGo init step (m + 1) i cur).head? = some cur := rfl

theorem gapsOf_cons_head {l : List ℚ} {x : ℚ} (a : ℚ) (hx : l.head? = some x) :
    gapsOf (a :: l) = (x - a) :: gapsOf l := by
  cases l with
  | nil => simp at hx
  | cons y t =>
    obtain rfl := Option.some.inj hx
    rfl

theorem rampUpGo_gaps (init step : ℚ) : ∀ (m i : ℕ) (cur : ℚ),
    gapsOf (rampUpGo init step m i cur) =
      (List.range (m - 1)).map (fun k : ℕ => init - ((i + k : ℕ) : ℚ) * step) := by
  intro m
  induction m with
  | zero => intro i cur; simp [rampUpGo, gapsOf]
  | succ m ih =>
    intro i cur
    cases m with
    | zero => simp [rampUpGo, gapsOf]
    | succ m' =>
      show gapsOf (cur :: rampUpGo init step (m' + 1) (i + 1)
        (cur + (init - (i : ℚ) * step))) = _
      rw [gapsOf_cons_head cur (rampUpGo_head_eq init step m' (i + 1) _)]
      rw [ih (i + 1) (cur + (init - (i : ℚ) * step))]
      rw [show m' + 1 - 1 = m' from rfl, show m' + 1 + 1 - 1 = m' + 1 from rfl]
      rw [List.range_succ_eq_map, List.map_cons, List.map_map]
      congr 1
      · push_cast
        ring
      · apply List.map_congr_left
        intro k hk
        simp only [Function.comp_apply]
        push_cast
        ring

theorem rampDownGo_gaps (init step : ℚ) : ∀ (m i : ℕ) (cur : ℚ),
    gapsOf (rampDownGo init step m i cur) =
      (List.range (m - 1)).map (fun k : ℕ => init + ((i + k : ℕ) : ℚ) * step) := by
  intro m
  induction m with
  | zero => intro i cur; simp [rampDownGo, gapsOf]
  | succ m ih =>
    intro i cur
    cases m with
    | zero => simp [rampDownGo, gapsOf]
    | succ m' =>
      show gapsOf (cur :: rampDownGo init step (m' + 1) (i + 1)
        (cur + (init + (i : ℚ) * step))) = _
      rw [gapsOf_cons_head cur (rampDownGo_head_eq init step m' (i + 1) _)]
      rw [ih (i + 1) (cur + (init + (i : ℚ) * step))]
      rw [show m' + 1 - 1 = m' from rfl, show m' + 1 + 1 - 1 = m' + 1 from rfl]
      rw [List.range_succ_eq_map, List.map_cons, List.map_map]
      congr 1
      · push_cast
        ring
      · apply List.map_congr_left
        intro k hk
        simp only [Function.comp_apply]
        push_cast
        ring

theorem getD_range_map (f : ℕ → ℚ) (m k : ℕ) (hk : k < m) :
    ((List.range m).map f).getD k 0 = f k := by
  simp [List.getD_eq_getElem?_getD, List.getElem?_map, List.getElem?_range, hk]

/-- C3 (amended): for `n ≥ 3`, the Ramp-Up inter-arrival gaps are non-increasing
and bounded below by `final_interval` provided `final_interval ≤ initial_interval`;
symmetrically the Ramp-Down gaps are non-decreasing and bounded above by
`final_interval` provided `initial_interval ≤ final_interval`. -/
theorem C3_gaps_monotone (numQtasks : ℤ) (initInterval finInterval base : ℚ)
    (hn : 3 ≤ numQtasks) :
    (finInterval ≤ initInterval →
      (∀ k : ℕ, k + 1 <
          (gapsOf (rampUpTimestamps numQtasks initInterval finInterval base)).length →
        (gapsOf (rampUpTimestamps numQtasks initInterval finInterval base)).getD (k + 1) 0 ≤
          (gapsOf (rampUpTimestamps numQtasks initInterval finInterval base)).getD k 0) ∧
      (∀ k : ℕ, k <
          (gapsOf (rampUpTimestamps numQtasks initInterval finInterval base)).length →
        finInterval ≤
          (gapsOf (rampUpTimestamps numQtasks initInterval finInterval base)).getD k 0)) ∧
    (initInterval ≤ finInterval →
      (∀ k : ℕ, k + 1 <
          (gapsOf (rampDownTimestamps numQtasks initInterval finInterval base)).length →
        (gapsOf (rampDownTimestamps numQtasks initInterval finInterval base)).getD k 0 ≤
          (gapsOf (rampDownTimestamps numQtasks initInterval finInterval base)).getD (k + 1) 0) ∧
      (∀ k : ℕ, k <
          (gapsOf (rampDownTimestamps numQtasks initInterval finInterval base)).length →
        (gapsOf (rampDownTimestamps numQtasks initInterval finInterval base)).getD k 0 ≤
          finInterval)) := by
  have hm3 : 3 ≤ numQtasks.toNat := by omega
  have hmc : ((numQtasks.toNat : ℕ) : ℚ) = (numQtasks : ℚ) := by
    have h := Int.toNat_of_nonneg (show (0 : ℤ) ≤ numQtasks by omega)
    exact_mod_cast congrArg (fun z : ℤ => (z : ℚ)) h
  have hM3 : (3 : ℚ) ≤ (numQtasks : ℚ) := by exact_mod_cast hn
  have hMne : (numQtasks : ℚ) - 1 ≠ 0 := by linarith
  constructor
  · intro hord
    have hs : 0 ≤ (initInterval - finInterval) / ((numQtasks : ℚ) - 1) :=
      div_nonneg (by linarith) (by linarith)
    have hkey : initInterval - finInterval =
        ((numQtasks : ℚ) - 1) * ((initInterval - finInterval) / ((numQtasks : ℚ) - 1)) := by
      field_simp
    have hgaps : gapsOf (rampUpTimestamps numQtasks initInterval finInterval base) =
        (List.range (numQtasks.toNat - 1)).map
          (fun k : ℕ => initInterval -
            (k : ℚ) * ((initInterval - finInterval) / ((numQtasks : ℚ) - 1))) := by
      unfold rampUpTimestamps
      rw [rampUpGo_gaps]
      apply List.map_congr_left
      intro k hk
      norm_num
    rw [hgaps]
    constructor
    · intro k hk
      simp only [List.length_map, List.length_range] at hk
      rw [getD_range_map _ _ _ (by omega), getD_range_map _ _ _ (by omega)]
      have hexp : initInterval - ((k : ℚ) + 1) *
          ((initInterval - finInterval) / ((numQtasks : ℚ) - 1)) =
          initInterval - (k : ℚ) * ((initInterval - finInterval) / ((numQtasks : ℚ) - 1)) -
            ((initInterval - finInterval) / ((numQtasks : ℚ) - 1)) := by ring
      push_cast
      rw [hexp]
      linarith
    · intro k hk
      simp only [List.length_map, List.length_range] at hk
      rw [getD_range_map _ _ _ (by omega)]
      have hkq : ((k : ℕ) : ℚ) + 2 ≤ ((numQtasks.toNat : ℕ) : ℚ) := by
        exact_mod_cast (show k + 2 ≤ numQtasks.toNat by omega)
      rw [hmc] at hkq
      have hprod : 0 ≤ ((numQtasks : ℚ) - 1 - (k : ℚ)) *
          ((initInterval - finInterval) / ((numQtasks : ℚ) - 1)) :=
        mul_nonneg (by linarith) hs
      nlinarith [hkey, hprod]
  · intro hord
    have hs : 0 ≤ (finInterval - initInterval) / ((numQtasks : ℚ) - 1) :=
      div_nonneg (by linarith) (by linarith)
    have hkey : finInterval - initInterval =
        ((numQtasks : ℚ) - 1) * ((finInterval - initInterval) / ((numQtasks : ℚ) - 1)) := by
      field_simp
    have hgaps : gapsOf (rampDownTimestamps numQtasks initInterval finInterval base) =
        (List.range (numQtasks.toNat - 1)).map
          (fun k : ℕ => initInterval +
            (k : ℚ) * ((finInterval - initInterval) / ((numQtasks : ℚ) - 1))) := by
      unfold rampDownTimestamps
      rw [rampDownGo_gaps]
      apply List.map_congr_left
      intro k hk
      norm_num
    rw [hgaps]
    constructor
    · intro k hk
      simp only [List.length_map, List.length_range] at hk
      rw [getD_range_map _ _ _ (by omega), getD_range_map _ _ _ (by omega)]
      have hexp : initInterval + ((k : ℚ) + 1) *
          ((finInterval - initInterval) / ((numQtasks : ℚ) - 1)) =
          initInterval + (k : ℚ) * ((finInterval - initInterval) / ((numQtasks : ℚ) - 1)) +
            ((finInterval - initInterval) / ((numQtasks : ℚ) - 1)) := by ring
      push_cast
      rw [hexp]
      linarith
    · intro k hk
      simp only [List.length_map, List.length_range] at hk
      rw [getD_range_map _ _ _ (by omega)]
      have hkq : ((k : ℕ) : ℚ) + 2 ≤ ((numQtasks.toNat : ℕ) : ℚ) := by
        exact_mod_cast (show k + 2 ≤ numQtasks.toNat by omega)
      rw [hmc] at hkq
      have hprod : 0 ≤ ((numQtasks : ℚ) - 1 - (k : ℚ)) *
          ((finInterval - initInterval) / ((numQtasks : ℚ) - 1)) :=
        mul_nonneg (by linarith) hs
      nlinarith [hkey, hprod]

theorem C3_gaps_monotone_witness :
    (gapsOf (rampUpTimestamps 3 2 1 0)).getD (0 + 1) 0 ≤
      (gapsOf (rampUpTimestamps 3 2 1 0)).getD 0 0 :=
  ((C3_gaps_monotone 3 2 1 0 (by norm_num)).1 (by norm_num)).1 0
    (by norm_num [gapsOf, rampUpTimestamps, rampUpGo])

theorem rampUpGo_length (init step : ℚ) :
    ∀ (m i : ℕ) (cur : ℚ), (rampUpGo init step m i cur).length = m := by
  intro m
  induction m with
  | zero => intro i cur; rfl
  | succ m ih =>
    intro i cur
    simp only [rampUpGo, List.length_cons, ih]

theorem rampDownGo_length (init step : ℚ) :
    ∀ (m i : ℕ) (cur : ℚ), (rampDownGo init step m i cur).length = m := by
  intro m
  induction m with
  | zero => intro i cur; rfl
  | succ m ih =>
    intro i cur
    simp only [rampDownGo, List.length_cons, ih]

theorem attachTimestamps_ok_of_length {α : Type} {tasks : List α} {ts : List ℚ}
    (h : tasks.length = ts.length) :
    attachTimestamps tasks ts =
      Except.ok (List.zipWith (fun a t => [Cell.task a, Cell.timestamp t]) tasks ts) := by
  unfold attachTimestamps
  rw [if_pos h]

/-- C4 (amended): the ramp strategies fail with the sampler's `InvalidParameter`
error exactly for `n < 0`, and with the `ZeroDivisionError` of the division by
`n - 1` exactly for `n = 1`; every other `n ≥ 0` (including `n = 0`) succeeds. -/
theorem C4_ramp_error_conditions {α : Type} (pick : ℕ → α) (numQtasks : ℤ)
    (initInterval finInterval base : ℚ) :
    (numQtasks < 0 →
      simulate_ramp_up pick numQtasks initInterval finInterval base =
        Except.error Err.invalidParameter ∧
      simulate_ramp_down pick numQtasks initInterval finInterval base =
        Except.error Err.invalidParameter) ∧
    (numQtasks = 1 →
      simulate_ramp_up pick numQtasks initInterval finInterval base =
        Except.error Err.zeroDivision ∧
      simulate_ramp_down pick numQtasks initInterval finInterval base =
        Except.error Err.zeroDivision) ∧
    (0 ≤ numQtasks → numQtasks ≠ 1 →
      (∃ rows, simulate_ramp_up pick numQtasks initInterval finInterval base =
        Except.ok rows) ∧
      (∃ rows, simulate_ramp_down pick numQtasks initInterval finInterval base =
        Except.ok rows)) := by
  refine ⟨?_, ?_, ?_⟩
  · intro hneg
    constructor <;>
      simp [simulate_ramp_up, simulate_ramp_down, sample, hneg, bind, Except.bind]
  · intro h1
    subst h1
    constructor <;>
      norm_num [simulate_ramp_up, simulate_ramp_down, sample, bind, Except.bind]
  · intro h0 hne
    have hn0 : ¬ numQtasks < 0 := not_lt.mpr h0
    have hne1 : ¬ (numQtasks - 1 = 0) := by omega
    have hlenUp : ((List.range numQtasks.toNat).map pick).length =
        ((rampUpTimestamps numQtasks initInterval finInterval base).take
          numQtasks.toNat).length := by
      simp [rampUpTimestamps, rampUpGo_length, List.length_take]
    have hlenDown : ((List.range numQtasks.toNat).map pick).length =
        ((rampDownTimestamps numQtasks initInterval finInterval base).take
          numQtasks.toNat).length := by
      simp [rampDownTimestamps, rampDownGo_length, List.length_take]
    constructor
    · simp only [simulate_ramp_up, sample, if_neg hn0, bind, Except.bind, if_neg hne1]
      rw [attachTimestamps_ok_of_length hlenUp]
      exact ⟨_, rfl⟩
    · simp only [simulate_ramp_down, sample, if_neg hn0, bind, Except.bind, if_neg hne1]
      rw [attachTimestamps_ok_of_length hlenDown]
      exact ⟨_, rfl⟩

theorem C4_ramp_error_conditions_witness :
    simulate_ramp_up (fun _ => (0 : ℕ)) 1 1 1 0 = Except.error Err.zeroDivision :=
  ((C4_ramp_error_conditions (fun _ => (0 : ℕ)) 1 1 1 0).2.1 rfl).1

/-- C7 (amended): the task sampler fails with `InvalidParameter` exactly for a
negative requested count; for `n ≥ 0` (including `n = 0`) it succeeds and returns
the `n` drawn records. -/
theorem C7_sample_error_condition {α : Type} (pick : ℕ → α) (n : ℤ) :
    (n < 0 → sample pick n = Except.error Err.invalidParameter) ∧
    (0 ≤ n → sample pick n = Except.ok ((List.range n.toNat).map pick)) := by
  constructor
  · intro h
    unfold sample
    rw [if_pos h]
  · intro h
    unfold sample
    rw [if_neg (not_lt.mpr h)]

theorem C7_sample_error_condition_witness :
    sample (fun _ => (0 : ℕ)) (-1) = Except.error Err.invalidParameter :=
  (C7_sample_error_condition (fun _ => (0 : ℕ)) (-1)).1 (by norm_num)

theorem mem_zipWith_exists {β γ δ : Type} {f : β → γ → δ} :
    ∀ {l1 : List β} {l2 : List γ} {x : δ}, x ∈ List.zipWith f l1 l2 → ∃ a c, x = f a c := by
  intro l1
  induction l1 with
  | nil => intro l2 x hx; simp at hx
  | cons a l1 ih =>
    intro l2 x hx
    cases l2 with
    | nil => simp at hx
    | cons c l2 =>
      rw [List.zipWith_cons_cons] at hx
      rcases List.mem_cons.mp hx with h1 | h2
      · exact ⟨a, c, h1⟩
      · exact ih h2

theorem attachTimestamps_shape {α : Type} {tasks : List α} {ts : List ℚ}
    {rows : List (Row α)} (h : attachTimestamps tasks ts = Except.ok rows) :
    ∀ row ∈ rows, ∃ a t, row = [Cell.task a, Cell.timestamp t] := by
  unfold attachTimestamps at h
  split at h
  · obtain rfl := Except.ok.inj h
    intro row hrow
    obtain ⟨a, t, hat⟩ := mem_zipWith_exists hrow
    exact ⟨a, t, hat⟩
  · exact absurd h (by simp)

theorem insertSubset_shape {α : Type} {rows : List (Row α)}
    (h : ∀ row ∈ rows, ∃ a t, row = [Cell.task a, Cell.timestamp t]) :
    ∀ row ∈ insertSubset rows, RowHasSchema row := by
  intro row hrow
  obtain ⟨row', hrow', hrfl⟩ := List.mem_map.mp hrow
  obtain ⟨a, t, hrfl2⟩ := h row' hrow'
  exact ⟨a, t, by rw [← hrfl, hrfl2]⟩

theorem except_bind_ok {β γ : Type} {x : Except Err β} {f : β → Except Err γ} {c : γ}
    (h : (x >>= f) = Except.ok c) : ∃ a, x = Except.ok a ∧ f a = Except.ok c := by
  cases hx : x with
  | error e =>
    rw [hx] at h
    exact absurd h (by simp [Bind.bind, Except.bind])
  | ok a =>
    rw [hx] at h
    refine ⟨a, rfl, ?_⟩
    simpa [Bind.bind, Except.bind] using h

/-- C2 (amended): every strategy except `simulate_ramp_down` produces records of
the form `[subset 1, task, timestamp]` (leading constant subset column); the records
of `simulate_ramp_down` are `[task, timestamp]`, with no subset column. -/
theorem C2_output_schema {α : Type} (pick : ℕ → α)
    (numQtasks burstTasks spikeTasks maxBurst : ℤ)
    (burstDuration normalInterval lowActivityInterval spikeInterval chance base : ℚ)
    (initInterval finInterval : ℚ) (u r : ℕ → ℚ) (b : ℕ → ℕ)
    (numRows : ℕ) (invocationCol : Option (List ℚ)) :
    (∀ rows, generate_single_spike_dataset pick numQtasks burstDuration normalInterval
        burstTasks base u = Except.ok rows → ∀ row ∈ rows, RowHasSchema row) ∧
    (∀ rows, generate_bursty_dataset pick numQtasks burstDuration burstTasks
        lowActivityInterval base u = Except.ok rows → ∀ row ∈ rows, RowHasSchema row) ∧
    (∀ rows, simulate_regular_spikes pick numQtasks spikeInterval spikeTasks
        normalInterval base u = Except.ok rows → ∀ row ∈ rows, RowHasSchema row) ∧
    (∀ rows, simulate_ramp_up pick numQtasks initInterval finInterval base =
        Except.ok rows → ∀ row ∈ rows, RowHasSchema row) ∧
    (∀ rows, generate_random_bursts pick numQtasks chance burstDuration maxBurst
        normalInterval base r b u = Except.ok rows → ∀ row ∈ rows, RowHasSchema row) ∧
    (∀ rows, map_invocation_times pick numRows invocationCol = Except.ok rows →
        ∀ row ∈ rows, RowHasSchema row) ∧
    (∀ rows, simulate_ramp_down pick numQtasks initInterval finInterval base =
        Except.ok rows → ∀ row ∈ rows, RowNoSubset row) := by
  refine ⟨?_, ?_, ?_, ?_, ?_, ?_, ?_⟩
  · intro rows hrows
    unfold generate_single_spike_dataset at hrows
    obtain ⟨tasks, hs, hrest⟩ := except_bind_ok hrows
    obtain ⟨rows', hat, hp⟩ := except_bind_ok hrest
    have hrowseq : insertSubset rows' = rows := by
      simpa [pure, Except.pure] using hp
    intro row hrow
    rw [← hrowseq] at hrow
    exact insertSubset_shape (attachTimestamps_shape hat) row hrow
  · intro rows hrows
    unfold generate_bursty_dataset at hrows
    obtain ⟨tasks, hs, hrest⟩ := except_bind_ok hrows
    obtain ⟨rows', hat, hp⟩ := except_bind_ok hrest
    have hrowseq : insertSubset rows' = rows := by
      simpa [pure, Except.pure] using hp
    intro row hrow
    rw [← hrowseq] at hrow
    exact insertSubset_shape (attachTimestamps_shape hat) row hrow
  · intro rows hrows
    unfold simulate_regular_spikes at hrows
    obtain ⟨tasks, hs, hrest⟩ := except_bind_ok hrows
    obtain ⟨ts, hts, hrest2⟩ := except_bind_ok hrest
    obtain ⟨rows', hat, hp⟩ := except_bind_ok hrest2
    have hrowseq : insertSubset rows' = rows := by
      simpa [pure, Except.pure] using hp
    intro row hrow
    rw [← hrowseq] at hrow
    exact insertSubset_shape (attachTimestamps_shape hat) row hrow
  · intro rows hrows
    unfold simulate_ramp_up at hrows
    obtain ⟨tasks, hs, hrest⟩ := except_bind_ok hrows
    by_cases hc : numQtasks - 1 = 0
    · rw [if_pos hc] at hrest
      exact absurd hrest (by simp)
    · rw [if_neg hc] at hrest
      obtain ⟨rows', hat, hp⟩ := except_bind_ok hrest
      have hrowseq : insertSubset rows' = rows := by
        simpa [pure, Except.pure] using hp
      intro row hrow
      rw [← hrowseq] at hrow
      exact insertSubset_shape (attachTimestamps_shape hat) row hrow
  · intro rows hrows
    unfold generate_random_bursts at hrows
    obtain ⟨tasks, hs, hrest⟩ := except_bind_ok hrows
    obtain ⟨ts, hts, hrest2⟩ := except_bind_ok hrest
    obtain ⟨rows', hat, hp⟩ := except_bind_ok hrest2
    have hrowseq : insertSubset rows' = rows := by
      simpa [pure, Except.pure] using hp
    intro row hrow
    rw [← hrowseq] at hrow
    exact insertSubset_shape (attachTimestamps_shape hat) row hrow
  · intro rows hrows
    unfold map_invocation_times at hrows
    obtain ⟨tasks, hs, hrest⟩ := except_bind_ok hrows
    cases invocationCol with
    | none => exact absurd hrest (by simp)
    | some ts =>
      obtain ⟨rows', hat, hp⟩ := except_bind_ok hrest
      have hrowseq : insertSubset rows' = rows := by
        simpa [pure, Except.pure] using hp
      intro row hrow
      rw [← hrowseq] at hrow
      exact insertSubset_shape (attachTimestamps_shape hat) row hrow
  · intro rows hrows
    unfold simulate_ramp_down at hrows
    obtain ⟨tasks, hs, hrest⟩ := except_bind_ok hrows
    by_cases hc : numQtasks - 1 = 0
    · rw [if_pos hc] at hrest
      exact absurd hrest (by simp)
    · rw [if_neg hc] at hrest
      obtain ⟨rows', hat, hp⟩ := except_bind_ok hrest
      have hrowseq : rows' = rows := by
        simpa [pure, Except.pure] using hp
      intro row hrow
      rw [← hrowseq] at hrow
      obtain ⟨a, t, hshape⟩ := attachTimestamps_shape hat row hrow
      exact ⟨a, t, hshape⟩

theorem C2_output_schema_witness :
    RowHasSchema ([Cell.subset 1, Cell.task (0 : ℕ), Cell.timestamp 0] : Row ℕ) :=
  (C2_output_schema (fun _ => (0 : ℕ)) 2 1 1 1 1 1 1 1 (1/2) 0 1 1
      (fun _ => 0) (fun _ => 0) (fun _ => 0) 1 (some [0])).2.2.2.1
    [[Cell.subset 1, Cell.task 0, Cell.timestamp 0],
      [Cell.subset 1, Cell.task 0, Cell.timestamp 1]]
    (by norm_num [simulate_ramp_up, sample, rampUpTimestamps, rampUpGo, attachTimestamps,
      insertSubset, bind, Except.bind, pure, Except.pure, List.range_succ,
      show (2:ℤ).toNat = 2 from rfl, List.replicate, List.take, List.zipWith])
    [Cell.subset 1, Cell.task 0, Cell.timestamp 0] (by simp)

theorem C6_zero_chance_regular_witness :
    randomBurstsTimestamps 2 0 1 1 1 0 (fun _ => 0) (fun _ => 0) (fun _ => 0) =
      Except.ok ((List.range (2 : ℤ).toNat).map (fun k : ℕ => (0 : ℚ) + (k : ℚ) * 1)) :=
  (C6_zero_chance_regular 2 1 1 1 0 (fun _ => 0) (fun _ => 0) (fun _ => 0)
    (by norm_num) (by norm_num) (fun j => le_refl 0)).1

theorem C9_first_timestamp_witness :
    (burstyTimestamps 1 1 1 1 0 (fun _ => 0)).head? = some 0 :=
  (C9_first_timestamp 1 1 1 1 1 1 1 1 (1/2) 0 (fun _ => 0) (fun _ => 0) (fun _ => 0)
    (by norm_num)).1

/-- C1: the claim demands that `generate_single_spike_dataset` with
`burst_tasks > num_qtasks` still yield exactly `num_qtasks` timestamps.  The code
builds `burst_tasks` timestamps, never truncates (its own comment, line 39, says
"Ensure we have exactly num_qtasks timestamps" but no code follows), and the
column assignment then fails: with `num_qtasks = 1`, `burst_tasks = 2`, the
synthesized sequence has length 2 and the call raises the length-mismatch error. -/
theorem C1_single_spike_missing_truncation :
    (singleSpikeTimestamps 1 2 5 1 0 (fun _ => 1/2)).length = 2 ∧
    generate_single_spike_dataset (fun _ => (0 : ℕ)) 1 5 1 2 0 (fun _ => 1/2) =
      Except.error Err.lengthMismatch := by
  constructor
  · norm_num [singleSpikeTimestamps, spikeBurstGo, normalGo]
  · norm_num [generate_single_spike_dataset, sample, singleSpikeTimestamps, spikeBurstGo,
      normalGo, attachTimestamps, bind, Except.bind, List.range_succ]

/-- C2 counterexample: `simulate_ramp_down` (whose `insert(0, 'subset', 1)` is
commented out, line 173) returns rows with no leading subset cell: at
`num_qtasks = 2`, `initial = final = 1`, `base = 0`, the first output row is
`[task, timestamp 0]`, whose head is not the subset cell the claim requires. -/
theorem C2_ramp_down_has_no_subset :
    simulate_ramp_down (fun _ => (0 : ℕ)) 2 1 1 0 =
      Except.ok [[Cell.task 0, Cell.timestamp 0], [Cell.task 0, Cell.timestamp 1]] ∧
    ([Cell.task (0 : ℕ), Cell.timestamp 0] : Row ℕ).head? ≠ some (Cell.subset 1) := by
  constructor
  · norm_num [simulate_ramp_down, sample, rampDownTimestamps, rampDownGo, attachTimestamps,
      insertSubset, bind, Except.bind, pure, Except.pure, List.range_succ,
      show (2:ℤ).toNat = 2 from rfl, List.replicate, List.take, List.zipWith]
  · intro h
    exact Cell.noConfusion (Option.some.inj h)

/-- C3 counterexample: with `num_qtasks = 3`, `initial_interval = 0`,
`final_interval = 2`, the Ramp-Up gaps are `[0, 1]`: the gap at step 1 exceeds the
gap at step 0, so the gaps are not non-increasing as the claim states (the claim
holds only when `final_interval ≤ initial_interval`). -/
theorem C3_ramp_up_gaps_can_increase :
    ¬ ((gapsOf (rampUpTimestamps 3 0 2 0)).getD 1 0 ≤
       (gapsOf (rampUpTimestamps 3 0 2 0)).getD 0 0) := by
  have h : gapsOf (rampUpTimestamps 3 0 2 0) = [0, 1] := by
    norm_num [gapsOf, rampUpTimestamps, rampUpGo]
  rw [h]
  norm_num [List.getD]

/-- C4 counterexample: `simulate_ramp_up` called with `num_qtasks = 0 < 2`
succeeds with an empty dataset instead of failing: the sampler accepts `n = 0`
and the line-137 division is by `0 - 1 = -1`, not zero. -/
theorem C4_ramp_up_accepts_zero :
    simulate_ramp_up (fun _ => (0 : ℕ)) 0 1 1 0 = Except.ok [] := by
  norm_num [simulate_ramp_up, sample, rampUpTimestamps, rampUpGo, attachTimestamps,
    insertSubset, bind, Except.bind, pure, Except.pure]

/-- C7 counterexample: the sampler called with `n = 0` succeeds with the empty
sample; it does not fail with `InvalidParameter` as the claim states for all
`n ≤ 0`. -/
theorem C7_sample_accepts_zero :
    sample (fun _ => (0 : ℕ)) 0 = Except.ok [] ∧
    sample (fun _ => (0 : ℕ)) 0 ≠ Except.error Err.invalidParameter := by
  have h0 : sample (fun _ => (0 : ℕ)) 0 = Except.ok [] := by norm_num [sample]
  refine ⟨h0, fun h => ?_⟩
  rw [h0] at h
  exact Except.noConfusion h

/-- C10: `generate_workload` dispatches scenario 1 to the bursty strategy and
scenarios 2-6 to regular spikes, ramp-up, ramp-down, random bursts, and the
pass-through mapping respectively, and no scenario identifier dispatches to the
single-spike strategy. -/
theorem C10_dispatch_table :
    generate_workload 1 = Except.ok Strategy.bursty ∧
    generate_workload 2 = Except.ok Strategy.regularSpikes ∧
    generate_workload 3 = Except.ok Strategy.rampUp ∧
    generate_workload 4 = Except.ok Strategy.rampDown ∧
    generate_workload 5 = Except.ok Strategy.randomBursts ∧
    generate_workload 6 = Except.ok Strategy.mapInvocation ∧
    ∀ scenario : ℤ, generate_workload scenario ≠ Except.ok Strategy.singleSpike := by
  refine ⟨rfl, rfl, rfl, rfl, rfl, rfl, ?_⟩

  intro scenario
  unfold generate_workload
  split
  · simp
  split
  · simp
  split
  · simp
  split
  · simp
  split
  · simp
  split
  · simp
  · simp

theorem C10_dispatch_table_witness :
    generate_workload 1 = Except.ok Strategy.bursty ∧
    generate_workload 7 ≠ Except.ok Strategy.singleSpike :=
  ⟨C10_dispatch_table.1, C10_dispatch_table.2.2.2.2.2.2 7⟩

end QWG
